import Mathlib

/-!
Shallow embedding of `post_isoseq_cluster/demux_isoseq_with_genome.py`.

The script demultiplexes IsoSeq output mapped to a genome: it reads a
classify report (`read_classify_csv`), a read-status table
(`read_read_stat`) and a mapped fastq, and writes a CSV count matrix of
full-length reads per isoform and primer.

Python dictionaries are modelled as insertion-ordered association lists
(`Dict`), Python `set` as a duplicate-free list built by `setAdd` (its
order is irrelevant: the program sorts it before use), and Python
`KeyError` as the explicit error value `PyError.keyError` carried in
`Except`.
-/

namespace Demux

/-- A Python dict: an insertion-ordered association list with string keys. -/
abbrev Dict (β : Type) := List (String × β)

/-- Python `d[k]` as an optional lookup: the value at the first (hence, for a
well-formed dict, unique) entry whose key is `k`. -/
def dictGet? {β : Type} (d : Dict β) (k : String) : Option β :=
  (d.find? (fun e => e.1 == k)).map (fun e => e.2)

/-- Python `d[k] = v`: replace the value at `k` in place if `k` is present,
otherwise append the new entry at the end (insertion order). -/
def dictSet {β : Type} : Dict β → String → β → Dict β
  | [], k, v => [(k, v)]
  | e :: t, k, v => if e.1 = k then (k, v) :: t else e :: dictSet t k v

/-- The keys of a dict, in insertion order. -/
def keys {β : Type} (d : Dict β) : List String := d.map Prod.fst

/-- The values of a dict, in insertion order. -/
def dictValues {β : Type} (d : Dict β) : List β := d.map Prod.snd

/-- Python `s.add(x)` on a set modelled as a duplicate-free list. -/
def setAdd (s : List String) (x : String) : List String :=
  if x ∈ s then s else s ++ [x]

/-- A Python `KeyError k`, the only error the modelled code can raise. -/
inductive PyError : Type
  | keyError (k : String)
  deriving Repr, DecidableEq

instance {ε α : Type} [DecidableEq ε] [DecidableEq α] : DecidableEq (Except ε α) :=
  fun x y =>
    match x, y with
    | .ok a, .ok b =>
      if h : a = b then .isTrue (by rw [h]) else .isFalse (by intro he; cases he; exact h rfl)
    | .error a, .error b =>
      if h : a = b then .isTrue (by rw [h]) else .isFalse (by intro he; cases he; exact h rfl)
    | .ok _, .error _ => .isFalse (by intro he; cases he)
    | .error _, .ok _ => .isFalse (by intro he; cases he)

/-- A Python `collections.Counter` with string keys: missing keys read as 0. -/
abbrev Counter := Dict Nat

/-- Python `c[k]` on a `Counter`: the stored count, or 0 when absent. -/
def counterGet (c : Counter) (k : String) : Nat := (dictGet? c k).getD 0

/-- Python `c[k] += 1` on a `Counter`. -/
def counterInc (c : Counter) (k : String) : Counter :=
  dictSet c k (counterGet c k + 1)

/-- One row of the classify report as `csv.DictReader` yields it: `id` is
always present; `primer` and `primer_index` are `none` when the header lacks
the field (so `r['primer']` raises and `'primer_index' in r` is false). -/
structure ClassifyRow : Type where
  id : String
  primer : Option String
  primer_index : Option String
  deriving Repr, DecidableEq

/-- The loop body of `read_classify_csv`: skip rows whose `primer` is
`"NA"`, otherwise take `primer_index` when the field exists else `primer`,
add it to the primer set and overwrite the lookup entry for the read id.
A row without a `primer` field raises `KeyError 'primer'`. -/
def classifyStep (acc : List String × Dict String) (r : ClassifyRow) :
    Except PyError (List String × Dict String) :=
  match r.primer with
  | none => .error (.keyError "primer")
  | some pr =>
    if pr = "NA" then .ok acc
    else
      let p := r.primer_index.getD pr
      .ok (setAdd acc.1 p, dictSet acc.2 r.id p)

/-- `read_classify_csv`: fold `classifyStep` over the report's rows starting
from an empty primer set and an empty lookup. -/
def read_classify_csv (rows : List ClassifyRow) :
    Except PyError (List String × Dict String) :=
  rows.foldlM classifyStep ([], [])

/-- A classify report file: which fields its header declares, and the raw
`(id, primer, primer_index)` cell values of each data row. -/
structure ClassifyTable : Type where
  primerField : Bool
  primerIndexField : Bool
  rows : List (String × String × String)
  deriving Repr, DecidableEq

/-- The row dictionaries `csv.DictReader` produces for a table: a field is
present in every row exactly when the header declares it. -/
def ClassifyTable.dictRows (t : ClassifyTable) : List ClassifyRow :=
  t.rows.map (fun e =>
    ⟨e.1, if t.primerField then some e.2.1 else none,
      if t.primerIndexField then some e.2.2 else none⟩)

/-- `read_classify_csv` run on a table read through `csv.DictReader`. -/
def read_classify_table (t : ClassifyTable) :
    Except PyError (List String × Dict String) :=
  read_classify_csv t.dictRows

/-- One row of the tab-separated `read_stat` table: the fields the code
reads are `id`, `is_fl` and `pbid`. -/
structure ReadStatRow : Type where
  id : String
  is_fl : String
  pbid : String
  deriving Repr, DecidableEq

/-- The count matrix: `defaultdict(Counter)` keyed by isoform id, converted
to a plain dict by `read_read_stat`'s final `dict(info)`. -/
abbrev CountDict := Dict Counter

/-- The loop body of `read_read_stat`: for a row with `is_fl == 'Y'` look
the read id up in the classify lookup (`KeyError` when absent) and increment
`info[pbid][p]`, auto-creating the inner counter; other rows do nothing. -/
def statStep (lookup : Dict String) (info : CountDict) (r : ReadStatRow) :
    Except PyError CountDict :=
  if r.is_fl = "Y" then
    match dictGet? lookup r.id with
    | none => .error (.keyError r.id)
    | some p =>
      .ok (dictSet info r.pbid (counterInc ((dictGet? info r.pbid).getD []) p))
  else .ok info

/-- `read_read_stat`: fold `statStep` over the table's rows from an empty
matrix. -/
def read_read_stat (rows : List ReadStatRow) (lookup : Dict String) :
    Except PyError CountDict :=
  rows.foldlM (statStep lookup) []

/-- Lexicographic comparison of two strings' character lists: the order
Python's `sort` uses on strings (code-point by code-point, a proper prefix
sorting first). -/
def charListLe : List Char → List Char → Bool
  | [], _ => true
  | _ :: _, [] => false
  | a :: as, b :: bs =>
    if a.toNat < b.toNat then true
    else if b.toNat < a.toNat then false
    else charListLe as bs

/-- Lexicographic `<=` on strings. -/
def strLeB (a b : String) : Bool := charListLe a.data b.data

/-- Insert a string into a lexicographically sorted list, keeping it sorted. -/
def insertSorted (x : String) : List String → List String
  | [] => [x]
  | y :: ys => if strLeB x y then x :: y :: ys else y :: insertSorted x ys

/-- Python `primer_list.sort()`: sort ascending lexicographically
(insertion sort; the order, not the algorithm, is what the code relies on). -/
def sortStrings (l : List String) : List String := l.foldr insertSorted []

/-- One step of the loop completing `primer_names`: insert `kv` only when
its key is not already a key of the dict. -/
def dictInsertMissing (pn : Dict String) (kv : String × String) : Dict String :=
  if kv.1 ∈ keys pn then pn else pn ++ [kv]

/-- The `primer_names` completion in `main`: with no override, the identity
dict over the sorted primer list; with an override, every sorted primer
missing from it is appended mapped to itself. -/
def buildPrimerNames (sorted_primers : List String) :
    Option (Dict String) → Dict String
  | none => sorted_primers.map (fun x => (x, x))
  | some pn => (sorted_primers.map (fun x => (x, x))).foldl dictInsertMissing pn

/-- The header line the code writes: `"id,"` followed by the comma-joined
KEYS of `primer_names` (`",".join(primer_names.keys())`). -/
def headerLine (pn : Dict String) : String :=
  "id," ++ String.intercalate "," (keys pn)

/-- Modelled from the spec (not the code), for comparison: the header as
§4.3 describes it, `"id"` followed by each column's display label — the
VALUES of `primer_names` — comma-joined. -/
def specHeaderLine (pn : Dict String) : String :=
  String.intercalate "," ("id" :: dictValues pn)

/-- The isoform id of a fastq record: `r.id.split('|')[0]`, the part of the
record id before the first `'|'` (the whole id when there is none). -/
def pbidOf (recId : String) : String :=
  String.mk (recId.data.takeWhile (fun ch => ch ≠ '|'))

/-- The numbers a matrix row displays: for each column primer, the stored
count or 0 when the primer is absent from the isoform's counter. -/
def rowCounts (c : Counter) (cols : List String) : List Nat :=
  cols.map (counterGet c)

/-- A matrix row as written: the isoform id, then `,count` per column. -/
def rowLine (pbid : String) (c : Counter) (cols : List String) : String :=
  pbid ++ String.join ((rowCounts c cols).map (fun n => "," ++ toString n))

/-- Writing one fastq record's row: with no columns the loop body never runs
and only the id is written; otherwise `info[pbid]` is read (`KeyError` when
the isoform has no entry, since `info` is a plain dict) and each column's
count comes from the inner `Counter` (0 when absent). -/
def writeRow (info : CountDict) (pn : Dict String) (recId : String) :
    Except PyError String :=
  let pbid := pbidOf recId
  if pn.isEmpty then .ok pbid
  else
    match dictGet? info pbid with
    | none => .error (.keyError pbid)
    | some c => .ok (rowLine pbid c (keys pn))

/-- The spec's reading of `counts[isoform][primer] or 0 if absent`,
including when the isoform itself has no entry. -/
def specCount (info : CountDict) (pbid p : String) : Nat :=
  ((dictGet? info pbid).bind (fun c => dictGet? c p)).getD 0

/-- `main` after the input files are parsed: build the classify index, the
count matrix and the completed `primer_names`, then emit the header line
followed by one row per fastq record. -/
def mainOutput (crows : List ClassifyRow) (srows : List ReadStatRow)
    (fastq_ids : List String) (pn? : Option (Dict String)) :
    Except PyError (List String) := do
  let cres ← read_classify_csv crows
  let info ← read_read_stat srows cres.2
  let pn := buildPrimerNames (sortStrings cres.1) pn?
  let rows ← fastq_ids.mapM (writeRow info pn)
  return headerLine pn :: rows

/-- The sum of all counts stored in a counter. -/
def counterTotal (c : Counter) : Nat := (dictValues c).sum

/-- The token a classify-report row contributes: `none` when the row is
skipped (`primer == 'NA'`) or the `primer` field is missing, otherwise its
`primer_index` when that field is present, else its `primer`. -/
def rowToken (r : ClassifyRow) : Option String :=
  match r.primer with
  | none => none
  | some pr => if pr = "NA" then none else some (r.primer_index.getD pr)

/-- Does a read-status row count towards isoform `pbid`: marked full-length,
assigned to that isoform, and its read id known to the classify lookup. -/
def flMatch (lookup : Dict String) (pbid : String) (r : ReadStatRow) : Bool :=
  r.is_fl == "Y" && (r.pbid == pbid && (dictGet? lookup r.id).isSome)

/-! ### Dictionary lemmas -/

theorem dictGet?_nil {β : Type} (k : String) : dictGet? ([] : Dict β) k = none := rfl

theorem dictGet?_cons {β : Type} (e : String × β) (t : Dict β) (k : String) :
    dictGet? (e :: t) k = if e.1 = k then some e.2 else dictGet? t k := by
  by_cases h : e.1 = k
  · simp [dictGet?, List.find?, h]
  · have hne : (e.1 == k) = false := by simpa using h
    simp [dictGet?, List.find?, hne, h]

theorem dictSet_cons {β : Type} (e : String × β) (t : Dict β) (k : String) (v : β) :
    dictSet (e :: t) k v = if e.1 = k then (k, v) :: t else e :: dictSet t k v := rfl

theorem keys_cons {β : Type} (e : String × β) (t : Dict β) :
    keys (e :: t) = e.1 :: keys t := rfl

theorem dictGet?_dictSet {β : Type} (d : Dict β) (k : String) (v : β) (q : String) :
    dictGet? (dictSet d k v) q = if q = k then some v else dictGet? d q := by
  induction d with
  | nil =>
    rw [show dictSet ([] : Dict β) k v = [(k, v)] from rfl, dictGet?_cons, dictGet?_nil]
    by_cases h : q = k
    · simp [h]
    · have h' : ¬ (k = q) := fun hh => h hh.symm
      simp [h, h']
  | cons e t ih =>
    rw [dictSet_cons]
    by_cases hek : e.1 = k
    · rw [if_pos hek, dictGet?_cons, dictGet?_cons]
      by_cases h : q = k
      · simp [h]
      · have h' : ¬ (k = q) := fun hh => h hh.symm
        have h'' : ¬ (e.1 = q) := hek ▸ h'
        simp [h, h', h'']
    · rw [if_neg hek, dictGet?_cons, dictGet?_cons, ih]
      by_cases h : e.1 = q
      · have hqk : ¬ (q = k) := fun hh => hek (h.symm ▸ hh)
        simp [h, hqk]
      · simp [h]

theorem keys_dictSet {β : Type} (d : Dict β) (k : String) (v : β) :
    keys (dictSet d k v) = if k ∈ keys d then keys d else keys d ++ [k] := by
  induction d with
  | nil => simp [dictSet, keys]
  | cons e t ih =>
    rw [dictSet_cons]
    by_cases hek : e.1 = k
    · simp [hek, keys_cons]
    · have hne : k ≠ e.1 := fun h => hek h.symm
      rw [if_neg hek, keys_cons, keys_cons, ih]
      by_cases hmem : k ∈ keys t
      · simp [hmem, hne]
      · simp [hmem, hne]

theorem mem_keys_iff_isSome {β : Type} (d : Dict β) (k : String) :
    (dictGet? d k).isSome = true ↔ k ∈ keys d := by
  induction d with
  | nil => simp [dictGet?_nil, keys]
  | cons e t ih =>
    rw [dictGet?_cons, keys_cons]
    by_cases h : e.1 = k
    · simp [h]
    · have hne : k ≠ e.1 := fun hh => h hh.symm
      simp [h, hne, ih]

theorem dictGet?_eq_none_of_not_mem {β : Type} {d : Dict β} {k : String}
    (h : k ∉ keys d) : dictGet? d k = none := by
  have hiff := mem_keys_iff_isSome d k
  cases hd : dictGet? d k with
  | none => rfl
  | some v => exact absurd (hiff.mp (by simp [hd])) h

theorem mem_values_of_dictGet? {β : Type} {d : Dict β} {k : String} {v : β}
    (h : dictGet? d k = some v) : v ∈ dictValues d := by
  induction d with
  | nil => simp [dictGet?_nil] at h
  | cons e t ih =>
    rw [dictGet?_cons] at h
    by_cases he : e.1 = k
    · rw [if_pos he] at h
      simp only [Option.some.injEq] at h
      simp [dictValues, h]
    · rw [if_neg he] at h
      simp only [dictValues, List.map_cons, List.mem_cons]
      exact Or.inr (ih h)

theorem dictValues_cons {β : Type} (e : String × β) (t : Dict β) :
    dictValues (e :: t) = e.2 :: dictValues t := rfl

theorem dictValues_dictSet_mem {β : Type} {d : Dict β} {k : String} {v w : β}
    (h : w ∈ dictValues (dictSet d k v)) : w = v ∨ w ∈ dictValues d := by
  induction d with
  | nil => simpa [dictSet, dictValues] using h
  | cons e t ih =>
    rw [dictSet_cons] at h
    by_cases he : e.1 = k
    · rw [if_pos he, dictValues_cons] at h
      rcases List.mem_cons.mp h with h | h
      · exact Or.inl h
      · exact Or.inr (by rw [dictValues_cons]; exact List.mem_cons_of_mem _ h)
    · rw [if_neg he, dictValues_cons] at h
      rcases List.mem_cons.mp h with h | h
      · exact Or.inr (by rw [dictValues_cons, h]; exact List.mem_cons_self _ _)
      · rcases ih h with h' | h'
        · exact Or.inl h'
        · exact Or.inr (by rw [dictValues_cons]; exact List.mem_cons_of_mem _ h')

theorem nodup_keys_dictSet {β : Type} {d : Dict β} (k : String) (v : β)
    (h : (keys d).Nodup) : (keys (dictSet d k v)).Nodup := by
  rw [keys_dictSet]
  by_cases hm : k ∈ keys d
  · simpa [hm] using h
  · simp only [if_neg hm]
    simpa [List.nodup_append] using ⟨h, hm⟩

theorem dictGet?_append {β : Type} (d₁ d₂ : Dict β) (k : String) :
    dictGet? (d₁ ++ d₂) k =
      match dictGet? d₁ k with
      | some v => some v
      | none => dictGet? d₂ k := by
  induction d₁ with
  | nil => simp [dictGet?_nil]
  | cons e t ih =>
    rw [List.cons_append, dictGet?_cons, dictGet?_cons]
    by_cases he : e.1 = k
    · simp [he]
    · simp [he, ih]

theorem dictGet?_map_diag (l : List String) (k : String) :
    dictGet? (l.map (fun x => (x, x))) k = if k ∈ l then some k else none := by
  induction l with
  | nil => simp [dictGet?_nil]
  | cons x t ih =>
    rw [List.map_cons, dictGet?_cons]
    by_cases hx : x = k
    · simp [hx]
    · have hne : k ≠ x := fun h => hx h.symm
      simp [hx, hne, ih]

/-! ### Set and counter lemmas -/

theorem mem_setAdd {s : List String} {x y : String} :
    y ∈ setAdd s x ↔ y ∈ s ∨ y = x := by
  by_cases h : x ∈ s
  · simp only [setAdd, if_pos h]
    constructor
    · exact Or.inl
    · rintro (hy | rfl)
      · exact hy
      · exact h
  · simp [setAdd, if_neg h]

theorem subset_setAdd (s : List String) (x : String) : s ⊆ setAdd s x := by
  intro y hy
  exact mem_setAdd.mpr (Or.inl hy)

theorem nodup_setAdd {s : List String} (x : String) (h : s.Nodup) :
    (setAdd s x).Nodup := by
  by_cases hm : x ∈ s
  · simpa [setAdd, hm] using h
  · simp only [setAdd, if_neg hm]
    simpa [List.nodup_append] using ⟨h, hm⟩

theorem counterTotal_counterInc (c : Counter) (k : String) :
    counterTotal (counterInc c k) = counterTotal c + 1 := by
  induction c with
  | nil => simp [counterInc, counterGet, dictGet?_nil, dictSet, counterTotal, dictValues]
  | cons e t ih =>
    rw [counterInc, counterGet, dictGet?_cons]
    by_cases he : e.1 = k
    · rw [if_pos he, dictSet_cons, if_pos he]
      simp [counterTotal, dictValues]
      omega
    · rw [if_neg he, dictSet_cons, if_neg he]
      have ih' := ih
      rw [counterInc, counterGet] at ih'
      simp only [counterTotal, dictValues, List.map_cons, List.sum_cons] at ih' ⊢
      omega

theorem counterGet_eq_zero_of_not_mem {c : Counter} {k : String}
    (h : k ∉ keys c) : counterGet c k = 0 := by
  simp [counterGet, dictGet?_eq_none_of_not_mem h]

theorem keys_counterInc_mem {c : Counter} {k p : String}
    (h : p ∈ keys (counterInc c k)) : p ∈ keys c ∨ p = k := by
  rw [counterInc, keys_dictSet] at h
  by_cases hm : k ∈ keys c
  · simpa [hm] using Or.inl h
  · simpa [hm] using h

theorem nodup_keys_counterInc {c : Counter} (k : String)
    (h : (keys c).Nodup) : (keys (counterInc c k)).Nodup :=
  nodup_keys_dictSet k _ h

/-! ### Sorting lemmas -/

theorem charListLe_trans :
    ∀ {as bs cs : List Char}, charListLe as bs = true → charListLe bs cs = true →
      charListLe as cs = true
  | [], _, _, _, _ => rfl
  | _ :: _, [], _, h1, _ => by simp [charListLe] at h1
  | _ :: _, _ :: _, [], _, h2 => by simp [charListLe] at h2
  | a :: as, b :: bs, c :: cs, h1, h2 => by
    simp only [charListLe] at h1 h2 ⊢
    have hab : a.toNat ≤ b.toNat := by
      by_cases hx : a.toNat < b.toNat
      · omega
      · by_cases hy : b.toNat < a.toNat
        · simp [hx, hy] at h1
        · omega
    have hbc : b.toNat ≤ c.toNat := by
      by_cases hx : b.toNat < c.toNat
      · omega
      · by_cases hy : c.toNat < b.toNat
        · simp [hx, hy] at h2
        · omega
    by_cases hac : a.toNat < c.toNat
    · simp [hac]
    · have he1 : ¬ a.toNat < b.toNat := by omega
      have he2 : ¬ b.toNat < a.toNat := by omega
      have he3 : ¬ b.toNat < c.toNat := by omega
      have he4 : ¬ c.toNat < b.toNat := by omega
      have hca : ¬ c.toNat < a.toNat := by omega
      rw [if_neg he1, if_neg he2] at h1
      rw [if_neg he3, if_neg he4] at h2
      rw [if_neg hac, if_neg hca]
      exact charListLe_trans h1 h2

theorem charListLe_total :
    ∀ (as bs : List Char), charListLe as bs = true ∨ charListLe bs as = true
  | [], _ => Or.inl rfl
  | _ :: _, [] => Or.inr rfl
  | a :: as, b :: bs => by
    simp only [charListLe]
    by_cases h1 : a.toNat < b.toNat
    · left
      simp [h1]
    · by_cases h2 : b.toNat < a.toNat
      · right
        simp [h1, h2]
      · rcases charListLe_total as bs with h | h
        · left
          simp [h1, h2, h]
        · right
          simp [h1, h2, h]

theorem strLeB_trans {a b c : String} (h1 : strLeB a b = true)
    (h2 : strLeB b c = true) : strLeB a c = true :=
  charListLe_trans h1 h2

theorem strLeB_total (a b : String) : strLeB a b = true ∨ strLeB b a = true :=
  charListLe_total a.data b.data

theorem perm_insertSorted (x : String) (l : List String) :
    List.Perm (insertSorted x l) (x :: l) := by
  induction l with
  | nil => exact List.Perm.refl _
  | cons y ys ih =>
    by_cases h : strLeB x y
    · rw [insertSorted, if_pos h]
    · rw [insertSorted, if_neg h]
      exact (ih.cons y).trans (List.Perm.swap x y ys)

theorem mem_insertSorted {x z : String} {l : List String} :
    z ∈ insertSorted x l ↔ z = x ∨ z ∈ l := by
  rw [(perm_insertSorted x l).mem_iff, List.mem_cons]

theorem sorted_insertSorted (x : String) {l : List String}
    (hs : List.Sorted (fun a b => strLeB a b = true) l) :
    List.Sorted (fun a b => strLeB a b = true) (insertSorted x l) := by
  induction l with
  | nil => simp [insertSorted]
  | cons y ys ih =>
    rcases List.sorted_cons.mp hs with ⟨hy, hys⟩
    by_cases h : strLeB x y
    · rw [insertSorted, if_pos h]
      refine List.sorted_cons.mpr ⟨?_, hs⟩
      intro z hz
      rcases List.mem_cons.mp hz with rfl | hz
      · exact h
      · exact strLeB_trans h (hy z hz)
    · rw [insertSorted, if_neg h]
      refine List.sorted_cons.mpr ⟨?_, ih hys⟩
      intro z hz
      rcases mem_insertSorted.mp hz with rfl | hz
      · rcases strLeB_total z y with h' | h'
        · exact absurd h' h
        · exact h'
      · exact hy z hz

theorem sortStrings_cons (x : String) (l : List String) :
    sortStrings (x :: l) = insertSorted x (sortStrings l) := rfl

theorem sortStrings_perm (l : List String) : List.Perm (sortStrings l) l := by
  induction l with
  | nil => exact List.Perm.refl _
  | cons x t ih => exact (perm_insertSorted x (sortStrings t)).trans (ih.cons x)

theorem sortStrings_sorted (l : List String) :
    List.Sorted (fun a b => strLeB a b = true) (sortStrings l) := by
  induction l with
  | nil => simp [sortStrings]
  | cons x t ih => exact sorted_insertSorted x ih

theorem mem_sortStrings {l : List String} {x : String} :
    x ∈ sortStrings l ↔ x ∈ l :=
  (sortStrings_perm l).mem_iff

theorem nodup_sortStrings {l : List String} (h : l.Nodup) :
    (sortStrings l).Nodup :=
  (sortStrings_perm l).nodup_iff.mpr h

/-! ### Row sums -/

theorem sum_map_counterGet_keys {c : Counter} (h : (keys c).Nodup) :
    ((keys c).map (counterGet c)).sum = counterTotal c := by
  induction c with
  | nil => rfl
  | cons e t ih =>
    rw [keys_cons] at h ⊢
    rcases List.nodup_cons.mp h with ⟨hnot, hnd⟩
    have hhead : counterGet (e :: t) e.1 = e.2 := by
      simp [counterGet, dictGet?_cons]
    have htail : (keys t).map (counterGet (e :: t)) = (keys t).map (counterGet t) := by
      apply List.map_congr_left
      intro q hq
      have hne : e.1 ≠ q := fun hh => hnot (hh ▸ hq)
      simp [counterGet, dictGet?_cons, hne]
    rw [List.map_cons, hhead, List.sum_cons, htail, ih hnd]
    rfl

theorem sum_rowCounts {c : Counter} {cols : List String} (hcols : cols.Nodup)
    (hkeys : (keys c).Nodup) (hsub : ∀ p ∈ keys c, p ∈ cols) :
    (rowCounts c cols).sum = counterTotal c := by
  have hperm :
      List.Perm (cols.filter (fun p => decide (p ∈ keys c)) ++
        cols.filter (fun p => !(decide (p ∈ keys c)))) cols :=
    List.filter_append_perm _ cols
  have hsum := (hperm.map (counterGet c)).sum_eq
  rw [rowCounts, ← hsum, List.map_append, List.sum_append]
  have hz : ((cols.filter (fun p => !(decide (p ∈ keys c)))).map (counterGet c)).sum = 0 := by
    apply List.sum_eq_zero
    intro n hn
    rcases List.mem_map.mp hn with ⟨p, hp, rfl⟩
    have hpm := (List.mem_filter.mp hp).2
    have hpn : p ∉ keys c := by simpa using hpm
    exact counterGet_eq_zero_of_not_mem hpn
  have hfperm : List.Perm (cols.filter (fun p => decide (p ∈ keys c))) (keys c) := by
    refine (List.perm_ext_iff_of_nodup (hcols.filter _) hkeys).mpr ?_
    intro p
    constructor
    · intro hp
      have := (List.mem_filter.mp hp).2
      simpa using this
    · intro hp
      exact List.mem_filter.mpr ⟨hsub p hp, by simpa using hp⟩
  have hfirst := (hfperm.map (counterGet c)).sum_eq
  rw [hfirst, sum_map_counterGet_keys hkeys, hz]
  omega

/-! ### Classify fold lemmas -/

theorem except_bind_ok {ε α β : Type} (a : α) (f : α → Except ε β) :
    (Except.ok a >>= f) = f a := rfl

theorem except_bind_error {ε α β : Type} (e : ε) (f : α → Except ε β) :
    ((Except.error e : Except ε α) >>= f) = Except.error e := rfl

theorem classifyStep_inv {acc out : List String × Dict String} {r : ClassifyRow}
    (h : classifyStep acc r = .ok out) :
    acc.1 ⊆ out.1 ∧ (acc.1.Nodup → out.1.Nodup) ∧
      ((∀ p ∈ dictValues acc.2, p ∈ acc.1) → ∀ p ∈ dictValues out.2, p ∈ out.1) := by
  cases hpr : r.primer with
  | none => simp only [classifyStep, hpr] at h; cases h
  | some pr =>
    simp only [classifyStep, hpr] at h
    by_cases hna : pr = "NA"
    · rw [if_pos hna] at h
      cases h
      exact ⟨fun _ hp => hp, id, id⟩
    · rw [if_neg hna] at h
      cases h
      refine ⟨subset_setAdd _ _, nodup_setAdd _, ?_⟩
      intro hvals p hp
      rcases dictValues_dictSet_mem hp with rfl | hp'
      · exact mem_setAdd.mpr (Or.inr rfl)
      · exact subset_setAdd _ _ (hvals p hp')

theorem classify_fold_inv (rows : List ClassifyRow) :
    ∀ acc out : List String × Dict String,
      rows.foldlM classifyStep acc = .ok out →
      acc.1 ⊆ out.1 ∧ (acc.1.Nodup → out.1.Nodup) ∧
        ((∀ p ∈ dictValues acc.2, p ∈ acc.1) → ∀ p ∈ dictValues out.2, p ∈ out.1) := by
  induction rows with
  | nil =>
    intro acc out h
    simp only [List.foldlM_nil] at h
    cases h
    exact ⟨fun _ hp => hp, id, id⟩
  | cons r t ih =>
    intro acc out h
    rw [List.foldlM_cons] at h
    cases hstep : classifyStep acc r with
    | error e => rw [hstep] at h; cases h
    | ok acc' =>
      rw [hstep] at h
      have h' : t.foldlM classifyStep acc' = .ok out := h
      obtain ⟨s1, s2, s3⟩ := classifyStep_inv hstep
      obtain ⟨i1, i2, i3⟩ := ih acc' out h'
      exact ⟨fun p hp => i1 (s1 hp), fun hnd => i2 (s2 hnd), fun hv => i3 (s3 hv)⟩

theorem classify_ok_of_all_some (rows : List ClassifyRow)
    (h : ∀ r ∈ rows, r.primer.isSome = true) :
    ∀ acc, ∃ out, rows.foldlM classifyStep acc = .ok out := by
  induction rows with
  | nil =>
    intro acc
    exact ⟨acc, rfl⟩
  | cons r t ih =>
    intro acc
    cases hpr : r.primer with
    | none => exact absurd (h r (List.mem_cons_self r t)) (by simp [hpr])
    | some pr =>
      have ht : ∀ x ∈ t, x.primer.isSome = true := fun x hx => h x (List.mem_cons_of_mem r hx)
      rw [List.foldlM_cons]
      by_cases hna : pr = "NA"
      · have hstep : classifyStep acc r = .ok acc := by simp only [classifyStep, hpr, if_pos hna]
        rw [hstep]
        exact ih ht acc
      · have hstep : classifyStep acc r =
            .ok (setAdd acc.1 (r.primer_index.getD pr), dictSet acc.2 r.id (r.primer_index.getD pr)) := by
          simp only [classifyStep, hpr, if_neg hna]
        rw [hstep]
        exact ih ht _

theorem classify_lookup_last (rows : List ClassifyRow)
    (acc : List String × Dict String) :
    ∀ out, rows.foldlM classifyStep acc = .ok out → ∀ q : String,
      dictGet? out.2 q =
        match (rows.filter (fun r => r.id == q && (rowToken r).isSome)).getLast? with
        | some r => rowToken r
        | none => dictGet? acc.2 q := by
  induction rows using List.reverseRecOn with
  | nil =>
    intro out h q
    simp only [List.foldlM_nil] at h
    cases h
    simp
  | append_singleton l r ihl =>
    intro out h q
    rw [List.foldlM_append] at h
    cases hmid : l.foldlM classifyStep acc with
    | error e => rw [hmid] at h; cases h
    | ok mid =>
      rw [hmid] at h
      have h2 : (classifyStep mid r >>=
          fun b => List.foldlM classifyStep b ([] : List ClassifyRow)) = .ok out := h
      have hstep : classifyStep mid r = .ok out := by
        cases hs : classifyStep mid r with
        | error e => rw [hs, except_bind_error] at h2; cases h2
        | ok w =>
          rw [hs, except_bind_ok] at h2
          have h3 : (Except.ok w : Except PyError (List String × Dict String)) = .ok out := h2
          rw [h3]
      have ihq := ihl mid hmid q
      rw [List.filter_append]
      by_cases hpred : (r.id == q && (rowToken r).isSome) = true
      · have hfr : List.filter (fun r => r.id == q && (rowToken r).isSome) [r] = [r] := by
          simp [List.filter, hpred]
        rw [hfr, List.getLast?_append]
        simp only [List.getLast?_singleton, Option.or_some]
        rcases Bool.and_eq_true_iff.mp hpred with ⟨hid, htok⟩
        have hid' : r.id = q := by simpa using hid
        cases hpr : r.primer with
        | none => simp [rowToken, hpr] at htok
        | some pr =>
          by_cases hna : pr = "NA"
          · simp [rowToken, hpr, hna] at htok
          · simp only [classifyStep, hpr, if_neg hna] at hstep
            cases hstep
            simp only [rowToken, hpr, if_neg hna]
            rw [dictGet?_dictSet]
            simp [hid']
      · have hfr : List.filter (fun r => r.id == q && (rowToken r).isSome) [r] = [] := by
          simp only [List.filter]
          rw [Bool.not_eq_true] at hpred
          rw [hpred]
        rw [hfr, List.append_nil]
        have hsame : dictGet? out.2 q = dictGet? mid.2 q := by
          cases hpr : r.primer with
          | none => simp only [classifyStep, hpr] at hstep; cases hstep
          | some pr =>
            by_cases hna : pr = "NA"
            · simp only [classifyStep, hpr, if_pos hna] at hstep
              cases hstep
              rfl
            · simp only [classifyStep, hpr, if_neg hna] at hstep
              cases hstep
              have htok : (rowToken r).isSome = true := by
                simp [rowToken, hpr, hna]
              have hidne : (r.id == q) = false := by
                cases hid : (r.id == q) with
                | false => rfl
                | true => exact absurd (by rw [hid, htok]; rfl) (fun hh => hpred hh)
              have hne : r.id ≠ q := by simpa using hidne
              have hne' : q ≠ r.id := fun hh => hne hh.symm
              rw [dictGet?_dictSet]
              simp [hne']
        rw [hsame, ihq]

theorem classify_filter_na (rows : List ClassifyRow) :
    ∀ acc, rows.foldlM classifyStep acc =
      (rows.filter (fun r => !(r.primer == some "NA"))).foldlM classifyStep acc := by
  induction rows with
  | nil => intro acc; rfl
  | cons r t ih =>
    intro acc
    by_cases hna : r.primer = some "NA"
    · have hstep : classifyStep acc r = .ok acc := by
        simp [classifyStep, hna]
      have hfc : List.filter (fun r => !(r.primer == some "NA")) (r :: t)
          = List.filter (fun r => !(r.primer == some "NA")) t := by
        rw [List.filter_cons]
        simp [hna]
      rw [List.foldlM_cons, hstep, except_bind_ok, hfc]
      exact ih acc
    · have hfc : List.filter (fun r => !(r.primer == some "NA")) (r :: t)
          = r :: List.filter (fun r => !(r.primer == some "NA")) t := by
        rw [List.filter_cons]
        simp [hna]
      rw [hfc, List.foldlM_cons, List.foldlM_cons]
      cases hstep : classifyStep acc r with
      | error e => rw [except_bind_error, except_bind_error]
      | ok acc' => rw [except_bind_ok, except_bind_ok]; exact ih acc'

/-! ### Read-stat fold lemmas -/

theorem stat_fold_total (lookup : Dict String) (rows : List ReadStatRow) :
    ∀ init info, rows.foldlM (statStep lookup) init = .ok info →
      ∀ pbid, counterTotal ((dictGet? info pbid).getD []) =
        counterTotal ((dictGet? init pbid).getD []) +
          (rows.filter (flMatch lookup pbid)).length := by
  induction rows with
  | nil =>
    intro init info h pbid
    simp only [List.foldlM_nil] at h
    cases h
    simp
  | cons r t ih =>
    intro init info h pbid
    rw [List.foldlM_cons] at h
    by_cases hfl : r.is_fl = "Y"
    · cases hlk : dictGet? lookup r.id with
      | none =>
        have hstep : statStep lookup init r = .error (.keyError r.id) := by
          simp only [statStep, if_pos hfl, hlk]
        rw [hstep, except_bind_error] at h
        cases h
      | some p =>
        have hstep : statStep lookup init r =
            .ok (dictSet init r.pbid (counterInc ((dictGet? init r.pbid).getD []) p)) := by
          simp only [statStep, if_pos hfl, hlk]
        rw [hstep, except_bind_ok] at h
        have ihh := ih _ info h pbid
        by_cases hpb : r.pbid = pbid
        · subst hpb
          have hms : flMatch lookup r.pbid r = true := by simp [flMatch, hfl, hlk]
          have hfilter : (r :: t).filter (flMatch lookup r.pbid)
              = r :: t.filter (flMatch lookup r.pbid) := by
            rw [List.filter_cons, if_pos hms]
          have hget : dictGet? (dictSet init r.pbid
                (counterInc ((dictGet? init r.pbid).getD []) p)) r.pbid
              = some (counterInc ((dictGet? init r.pbid).getD []) p) := by
            rw [dictGet?_dictSet]
            simp
          rw [hget] at ihh
          simp only [Option.getD_some] at ihh
          rw [counterTotal_counterInc] at ihh
          rw [hfilter, List.length_cons, ihh]
          omega
        · have hpb' : (r.pbid == pbid) = false := by simpa using hpb
          have hms : flMatch lookup pbid r = false := by simp [flMatch, hpb']
          have hfilter : (r :: t).filter (flMatch lookup pbid)
              = t.filter (flMatch lookup pbid) := by
            rw [List.filter_cons, if_neg (by simp [hms])]
          have hne : pbid ≠ r.pbid := fun hh => hpb hh.symm
          have hget : dictGet? (dictSet init r.pbid
                (counterInc ((dictGet? init r.pbid).getD []) p)) pbid
              = dictGet? init pbid := by
            rw [dictGet?_dictSet, if_neg hne]
          rw [hget] at ihh
          rw [hfilter, ihh]
    · have hstep : statStep lookup init r = .ok init := by
        simp only [statStep, if_neg hfl]
      rw [hstep, except_bind_ok] at h
      have ihh := ih _ info h pbid
      have hfl' : (r.is_fl == "Y") = false := by simpa using hfl
      have hms : flMatch lookup pbid r = false := by simp [flMatch, hfl']
      have hfilter : (r :: t).filter (flMatch lookup pbid)
          = t.filter (flMatch lookup pbid) := by
        rw [List.filter_cons, if_neg (by simp [hms])]
      rw [hfilter, ihh]

theorem stat_fold_keys (lookup : Dict String) (rows : List ReadStatRow) :
    ∀ init info, rows.foldlM (statStep lookup) init = .ok info →
      (∀ pbid c, dictGet? init pbid = some c →
        (keys c).Nodup ∧ ∀ p ∈ keys c, p ∈ dictValues lookup) →
      ∀ pbid c, dictGet? info pbid = some c →
        (keys c).Nodup ∧ ∀ p ∈ keys c, p ∈ dictValues lookup := by
  induction rows with
  | nil =>
    intro init info h hinv
    simp only [List.foldlM_nil] at h
    cases h
    exact hinv
  | cons r t ih =>
    intro init info h hinv
    rw [List.foldlM_cons] at h
    by_cases hfl : r.is_fl = "Y"
    · cases hlk : dictGet? lookup r.id with
      | none =>
        have hstep : statStep lookup init r = .error (.keyError r.id) := by
          simp only [statStep, if_pos hfl, hlk]
        rw [hstep, except_bind_error] at h
        cases h
      | some p =>
        have hstep : statStep lookup init r =
            .ok (dictSet init r.pbid (counterInc ((dictGet? init r.pbid).getD []) p)) := by
          simp only [statStep, if_pos hfl, hlk]
        rw [hstep, except_bind_ok] at h
        refine ih _ info h ?_
        intro pbid c hc
        rw [dictGet?_dictSet] at hc
        by_cases hpb : pbid = r.pbid
        · rw [if_pos hpb] at hc
          have hc' : c = counterInc ((dictGet? init r.pbid).getD []) p := by
            exact (Option.some.injEq _ _ ▸ hc.symm)
          subst hc'
          have hbase : (keys ((dictGet? init r.pbid).getD [])).Nodup ∧
              ∀ q ∈ keys ((dictGet? init r.pbid).getD []), q ∈ dictValues lookup := by
            cases hg : dictGet? init r.pbid with
            | none => simp [keys]
            | some c0 =>
              have := hinv r.pbid c0 hg
              simpa using this
          constructor
          · exact nodup_keys_counterInc p hbase.1
          · intro q hq
            rcases keys_counterInc_mem hq with hq' | rfl
            · exact hbase.2 q hq'
            · exact mem_values_of_dictGet? hlk
        · rw [if_neg hpb] at hc
          exact hinv pbid c hc
    · have hstep : statStep lookup init r = .ok init := by
        simp only [statStep, if_neg hfl]
      rw [hstep, except_bind_ok] at h
      exact ih _ info h hinv

theorem stat_fold_error_iff (lookup : Dict String) (rows : List ReadStatRow) :
    ∀ init,
      (∃ e, rows.foldlM (statStep lookup) init = .error e) ↔
        ∃ r ∈ rows, r.is_fl = "Y" ∧ dictGet? lookup r.id = none := by
  induction rows with
  | nil =>
    intro init
    constructor
    · rintro ⟨e, h⟩
      simp only [List.foldlM_nil] at h
      cases h
    · rintro ⟨r, hr, _⟩
      exact absurd hr (List.not_mem_nil r)
  | cons r t ih =>
    intro init
    rw [List.foldlM_cons]
    by_cases hfl : r.is_fl = "Y"
    · cases hlk : dictGet? lookup r.id with
      | none =>
        have hstep : statStep lookup init r = .error (.keyError r.id) := by
          simp only [statStep, if_pos hfl, hlk]
        rw [hstep, except_bind_error]
        constructor
        · intro _
          exact ⟨r, List.mem_cons_self r t, hfl, hlk⟩
        · intro _
          exact ⟨.keyError r.id, rfl⟩
      | some p =>
        have hstep : statStep lookup init r =
            .ok (dictSet init r.pbid (counterInc ((dictGet? init r.pbid).getD []) p)) := by
          simp only [statStep, if_pos hfl, hlk]
        rw [hstep, except_bind_ok]
        constructor
        · intro hx
          rcases (ih _).mp hx with ⟨x, hx1, hx2, hx3⟩
          exact ⟨x, List.mem_cons_of_mem r hx1, hx2, hx3⟩
        · rintro ⟨x, hx1, hx2, hx3⟩
          rcases List.mem_cons.mp hx1 with rfl | hx1
          · rw [hlk] at hx3
            cases hx3
          · exact (ih _).mpr ⟨x, hx1, hx2, hx3⟩
    · have hstep : statStep lookup init r = .ok init := by
        simp only [statStep, if_neg hfl]
      rw [hstep, except_bind_ok]
      constructor
      · intro hx
        rcases (ih _).mp hx with ⟨x, hx1, hx2, hx3⟩
        exact ⟨x, List.mem_cons_of_mem r hx1, hx2, hx3⟩
      · rintro ⟨x, hx1, hx2, hx3⟩
        rcases List.mem_cons.mp hx1 with rfl | hx1
        · exact absurd hx2 hfl
        · exact (ih _).mpr ⟨x, hx1, hx2, hx3⟩

theorem stat_fold_error_val (lookup : Dict String) (rows : List ReadStatRow) :
    ∀ init e, rows.foldlM (statStep lookup) init = .error e →
      ∃ r ∈ rows, e = .keyError r.id ∧ r.is_fl = "Y" ∧ dictGet? lookup r.id = none := by
  induction rows with
  | nil =>
    intro init e h
    simp only [List.foldlM_nil] at h
    cases h
  | cons r t ih =>
    intro init e h
    rw [List.foldlM_cons] at h
    by_cases hfl : r.is_fl = "Y"
    · cases hlk : dictGet? lookup r.id with
      | none =>
        have hstep : statStep lookup init r = .error (.keyError r.id) := by
          simp only [statStep, if_pos hfl, hlk]
        rw [hstep, except_bind_error] at h
        cases h
        exact ⟨r, List.mem_cons_self r t, rfl, hfl, hlk⟩
      | some p =>
        have hstep : statStep lookup init r =
            .ok (dictSet init r.pbid (counterInc ((dictGet? init r.pbid).getD []) p)) := by
          simp only [statStep, if_pos hfl, hlk]
        rw [hstep, except_bind_ok] at h
        rcases ih _ e h with ⟨x, hx1, hx2, hx3, hx4⟩
        exact ⟨x, List.mem_cons_of_mem r hx1, hx2, hx3, hx4⟩
    · have hstep : statStep lookup init r = .ok init := by
        simp only [statStep, if_neg hfl]
      rw [hstep, except_bind_ok] at h
      rcases ih _ e h with ⟨x, hx1, hx2, hx3, hx4⟩
      exact ⟨x, List.mem_cons_of_mem r hx1, hx2, hx3, hx4⟩

/-! ### Primer-name completion lemmas -/

theorem keys_append {β : Type} (d₁ d₂ : Dict β) :
    keys (d₁ ++ d₂) = keys d₁ ++ keys d₂ := List.map_append _ _ _

theorem foldl_dictInsertMissing (l : List (String × String)) :
    ∀ pn : Dict String, (l.map Prod.fst).Nodup →
      l.foldl dictInsertMissing pn
        = pn ++ l.filter (fun kv => !(decide (kv.1 ∈ keys pn))) := by
  induction l with
  | nil =>
    intro pn _
    simp
  | cons kv t ih =>
    intro pn hnd
    rw [List.map_cons, List.nodup_cons] at hnd
    obtain ⟨hkv, hnd'⟩ := hnd
    rw [List.foldl_cons]
    by_cases hm : kv.1 ∈ keys pn
    · rw [show dictInsertMissing pn kv = pn from if_pos hm]
      rw [ih pn hnd']
      have hfc : List.filter (fun kv => !(decide (kv.1 ∈ keys pn))) (kv :: t)
          = List.filter (fun kv => !(decide (kv.1 ∈ keys pn))) t := by
        rw [List.filter_cons]
        simp [hm]
      rw [hfc]
    · rw [show dictInsertMissing pn kv = pn ++ [kv] from if_neg hm]
      rw [ih (pn ++ [kv]) hnd']
      have hfilter : List.filter (fun x => !(decide (x.1 ∈ keys (pn ++ [kv])))) t
          = List.filter (fun x => !(decide (x.1 ∈ keys pn))) t := by
        apply List.filter_congr
        intro x hx
        have hxne : x.1 ≠ kv.1 := by
          intro hh
          exact hkv (hh ▸ List.mem_map_of_mem Prod.fst hx)
        rw [keys_append]
        simp [keys, hxne]
      have hfc : List.filter (fun x => !(decide (x.1 ∈ keys pn))) (kv :: t)
          = kv :: List.filter (fun x => !(decide (x.1 ∈ keys pn))) t := by
        rw [List.filter_cons]
        simp [hm]
      rw [hfilter, hfc, List.append_assoc]
      rfl

theorem buildPrimerNames_none_eq (sorted : List String) :
    buildPrimerNames sorted none = sorted.map (fun x => (x, x)) := rfl

theorem keys_map_diag (l : List String) :
    keys (l.map (fun x => (x, x))) = l := by
  rw [keys, List.map_map]
  have hcomp : (Prod.fst ∘ fun x : String => (x, x)) = id := rfl
  rw [hcomp, List.map_id]

theorem buildPrimerNames_some_eq (sorted : List String) (pn : Dict String)
    (h : sorted.Nodup) :
    buildPrimerNames sorted (some pn)
      = pn ++ (sorted.filter (fun x => !(decide (x ∈ keys pn)))).map (fun x => (x, x)) := by
  rw [buildPrimerNames]
  have hnd : ((sorted.map (fun x => (x, x))).map Prod.fst).Nodup := by
    have hk : (sorted.map (fun x => (x, x))).map Prod.fst = sorted := keys_map_diag sorted
    rw [hk]
    exact h
  rw [foldl_dictInsertMissing _ pn hnd, List.filter_map]
  rfl

theorem mem_keys_buildPrimerNames_some {sorted : List String} {pn : Dict String}
    {p : String} (h : sorted.Nodup) (hp : p ∈ sorted) :
    p ∈ keys (buildPrimerNames sorted (some pn)) := by
  rw [buildPrimerNames_some_eq sorted pn h, keys_append, keys_map_diag]
  by_cases hm : p ∈ keys pn
  · exact List.mem_append_left _ hm
  · refine List.mem_append_right _ ?_
    exact List.mem_filter.mpr ⟨hp, by simpa using hm⟩

theorem keys_buildPrimerNames_none_nodup {sorted : List String}
    (h : sorted.Nodup) : (keys (buildPrimerNames sorted none)).Nodup := by
  rw [buildPrimerNames_none_eq, keys_map_diag]
  exact h

theorem keys_buildPrimerNames_some_nodup {sorted : List String} {pn : Dict String}
    (h : sorted.Nodup) (hpn : (keys pn).Nodup) :
    (keys (buildPrimerNames sorted (some pn))).Nodup := by
  rw [buildPrimerNames_some_eq sorted pn h, keys_append, keys_map_diag]
  rw [List.nodup_append]
  refine ⟨hpn, h.filter _, ?_⟩
  intro x hx hx'
  have := (List.mem_filter.mp hx').2
  simp at this
  exact this hx

/-! ### Matrix writer lemmas -/

theorem writeRow_ok_of_mem {info : CountDict} {pn : Dict String} {rid : String}
    {c : Counter} (hg : dictGet? info (pbidOf rid) = some c) :
    writeRow info pn rid = .ok (rowLine (pbidOf rid) c (keys pn)) := by
  cases pn with
  | nil =>
    simp only [writeRow, List.isEmpty_nil, if_pos]
    rw [rowLine]
    have hjoin : String.join ((rowCounts c (keys ([] : Dict String))).map
        (fun n => "," ++ toString n)) = "" := rfl
    rw [hjoin, String.append_empty]
  | cons e pt =>
    simp only [writeRow, List.isEmpty_cons, Bool.false_eq_true, if_false, hg]

theorem writeRow_error_of_not_mem {info : CountDict} {pn : Dict String} {rid : String}
    (hne : ¬ pn.isEmpty = true) (hg : dictGet? info (pbidOf rid) = none) :
    writeRow info pn rid = .error (.keyError (pbidOf rid)) := by
  simp only [writeRow, if_neg hne, hg]

theorem mapM_writeRow_ok (info : CountDict) (pn : Dict String) (fids : List String)
    (h : ∀ rid ∈ fids, (dictGet? info (pbidOf rid)).isSome = true) :
    fids.mapM (writeRow info pn)
      = .ok (fids.map (fun rid =>
          rowLine (pbidOf rid) ((dictGet? info (pbidOf rid)).getD []) (keys pn))) := by
  induction fids with
  | nil => rfl
  | cons rid t ih =>
    have hrid := h rid (List.mem_cons_self rid t)
    cases hg : dictGet? info (pbidOf rid) with
    | none => rw [hg] at hrid; cases hrid
    | some c =>
      have ht : ∀ x ∈ t, (dictGet? info (pbidOf x)).isSome = true :=
        fun x hx => h x (List.mem_cons_of_mem rid hx)
      rw [List.mapM_cons, writeRow_ok_of_mem hg, except_bind_ok, ih ht, except_bind_ok]
      rw [List.map_cons, hg]
      rfl

/-! ### Additional helper lemmas for the claims -/

theorem classify_error_of_head_none {r : ClassifyRow} (h : r.primer = none)
    (t : List ClassifyRow) (acc : List String × Dict String) :
    (r :: t).foldlM classifyStep acc = .error (.keyError "primer") := by
  rw [List.foldlM_cons]
  have hstep : classifyStep acc r = .error (.keyError "primer") := by
    simp only [classifyStep, h]
  rw [hstep, except_bind_error]

theorem classify_nil_values (p : String) (hp : p ∈ dictValues (([], []) : List String × Dict String).2) :
    p ∈ (([], []) : List String × Dict String).1 := by
  simp [dictValues] at hp

/-! ### Claim theorems -/

/-- C1 (code bug): the header line `main` writes joins the KEYS of
`primer_names`, not the display labels (the values); with an override
mapping primer `"2"` to `"SampleA"` and observed primers `{"2", "3"}` the
code writes `"id,2,3"`, while the header the claim (and the option's
documented purpose, showing sample names) requires is `"id,SampleA,3"`. -/
theorem c1_header_uses_keys_not_labels :
    mainOutput [⟨"r1", some "2", none⟩, ⟨"r2", some "3", none⟩]
        [⟨"r1", "Y", "PB.1.1"⟩, ⟨"r2", "Y", "PB.1.1"⟩]
        ["PB.1.1|arrow"] (some [("2", "SampleA")])
      = .ok ["id,2,3", "PB.1.1,1,1"] ∧
    specHeaderLine (buildPrimerNames (sortStrings ["2", "3"]) (some [("2", "SampleA")]))
      = "id,SampleA,3" ∧
    "id,2,3" ≠ "id,SampleA,3" :=
  ⟨by decide, by decide, by decide⟩

/-- C2 counterexample: the claim says the writer emits 0 for an isoform with
no `CountMatrix` entry at all and never fails except on I/O; in fact
`read_read_stat` returns a plain dict, so an isoform present in the fastq
but absent from the matrix raises `KeyError` instead of printing zeros. -/
theorem c2_missing_isoform_key_error :
    mainOutput [⟨"r1", some "2", none⟩] [⟨"r1", "Y", "PB.1.1"⟩] ["PB.9.9|x"] none
      = .error (.keyError "PB.9.9") := by decide

/-- C2 (amended): for every isoform that HAS an entry in the count matrix,
the writer succeeds and each emitted cell is `counts[isoform][primer]`, or 0
when the (isoform, primer) pair is absent — the emitted numbers agree with
the spec's zero-default reading `specCount`. -/
theorem c2_present_isoform_zero_default (info : CountDict) (pn : Dict String)
    (rid : String) (c : Counter) (hg : dictGet? info (pbidOf rid) = some c) :
    writeRow info pn rid = .ok (rowLine (pbidOf rid) c (keys pn)) ∧
    rowCounts c (keys pn) = (keys pn).map (specCount info (pbidOf rid)) := by
  refine ⟨writeRow_ok_of_mem hg, ?_⟩
  rw [rowCounts]
  apply List.map_congr_left
  intro p _
  rw [specCount, hg]
  rfl

theorem c2_present_isoform_zero_default_wit :
    writeRow [("PB.1.1", [("2", 1)])] [("2", "2"), ("7", "7")] "PB.1.1|x"
      = .ok (rowLine (pbidOf "PB.1.1|x") [("2", 1)] (keys [("2", "2"), ("7", "7")])) ∧
    rowCounts [("2", 1)] (keys [("2", "2"), ("7", "7")])
      = (keys [("2", "2"), ("7", "7")]).map
          (specCount [("PB.1.1", [("2", 1)])] (pbidOf "PB.1.1|x")) :=
  c2_present_isoform_zero_default [("PB.1.1", [("2", 1)])] [("2", "2"), ("7", "7")]
    "PB.1.1|x" [("2", 1)] (by decide)

/-- C3 counterexample: the claim says each isoform gets exactly one output
row even when its identifier recurs across sequence records; in fact the
writer emits one row per record with no deduplication, so two records with
the same stripped id produce two identical rows. -/
theorem c3_duplicate_records_duplicate_rows :
    mainOutput [⟨"r1", some "2", none⟩] [⟨"r1", "Y", "PB.1.1"⟩]
        ["PB.1.1|a", "PB.1.1|b"] none
      = .ok ["id,2", "PB.1.1,1", "PB.1.1,1"] ∧
    ["id,2", "PB.1.1,1", "PB.1.1,1"].count "PB.1.1,1" = 2 :=
  ⟨by decide, by decide⟩

/-- C3 (amended): the output is the header followed by exactly one row per
sequence record of the mapped-read file, in file order, each row keyed by
the record id's part before the first `'|'`; an isoform id that recurs
across records therefore yields one row per occurrence. -/
theorem c3_one_row_per_record (crows : List ClassifyRow) (srows : List ReadStatRow)
    (fids : List String) (pn? : Option (Dict String)) (ps : List String)
    (lk : Dict String) (info : CountDict)
    (hc : read_classify_csv crows = .ok (ps, lk))
    (hs : read_read_stat srows lk = .ok info)
    (hin : ∀ rid ∈ fids, (dictGet? info (pbidOf rid)).isSome = true) :
    mainOutput crows srows fids pn?
      = .ok (headerLine (buildPrimerNames (sortStrings ps) pn?) ::
          fids.map (fun rid =>
            rowLine (pbidOf rid) ((dictGet? info (pbidOf rid)).getD [])
              (keys (buildPrimerNames (sortStrings ps) pn?)))) := by
  rw [mainOutput, hc, except_bind_ok]
  rw [hs, except_bind_ok]
  change (fids.mapM (writeRow info (buildPrimerNames (sortStrings ps) pn?)) >>=
      fun rows => pure (headerLine (buildPrimerNames (sortStrings ps) pn?) :: rows)) = _
  rw [mapM_writeRow_ok info (buildPrimerNames (sortStrings ps) pn?) fids hin,
    except_bind_ok]
  rfl

theorem c3_one_row_per_record_wit :
    mainOutput [⟨"r1", some "2", none⟩] [⟨"r1", "Y", "PB.1.1"⟩]
        ["PB.1.1|a", "PB.1.1|b"] none
      = .ok ["id,2", "PB.1.1,1", "PB.1.1,1"] :=
  (c3_one_row_per_record [⟨"r1", some "2", none⟩] [⟨"r1", "Y", "PB.1.1"⟩]
    ["PB.1.1|a", "PB.1.1|b"] none ["2"] [("r1", "2")] [("PB.1.1", [("2", 1)])]
    (by decide) (by decide) (by decide)).trans (by decide)

/-- C4: for every isoform with a row in the matrix, the sum of its emitted
per-primer counts over the output columns equals the number of read-status
rows that are full-length (`is_fl = "Y"`), carry that isoform id, and whose
read id is present in the classify lookup; non-full-length rows never
contribute (they fail `flMatch` by definition). -/
theorem c4_sum_invariant (crows : List ClassifyRow) (srows : List ReadStatRow)
    (pn? : Option (Dict String)) (ps : List String) (lk : Dict String)
    (info : CountDict) (pbid : String) (c : Counter)
    (hc : read_classify_csv crows = .ok (ps, lk))
    (hs : read_read_stat srows lk = .ok info)
    (hpn : ∀ pn, pn? = some pn → (keys pn).Nodup)
    (hg : dictGet? info pbid = some c) :
    (rowCounts c (keys (buildPrimerNames (sortStrings ps) pn?))).sum
      = (srows.filter (flMatch lk pbid)).length := by
  obtain ⟨_, hnodup, hvals⟩ := classify_fold_inv crows ([], []) (ps, lk) hc
  have hpsnd : ps.Nodup := hnodup List.nodup_nil
  have hvals' : ∀ p ∈ dictValues lk, p ∈ ps := hvals classify_nil_values
  have hkeys := stat_fold_keys lk srows [] info hs
    (by intro pbid2 c2 hcc; rw [dictGet?_nil] at hcc; cases hcc)
  obtain ⟨hcnd, hcmem⟩ := hkeys pbid c hg
  have hsnd : (sortStrings ps).Nodup := nodup_sortStrings hpsnd
  have hcolnd : (keys (buildPrimerNames (sortStrings ps) pn?)).Nodup := by
    cases pn? with
    | none => exact keys_buildPrimerNames_none_nodup hsnd
    | some pn => exact keys_buildPrimerNames_some_nodup hsnd (hpn pn rfl)
  have hsubcols : ∀ p ∈ keys c, p ∈ keys (buildPrimerNames (sortStrings ps) pn?) := by
    intro p hp
    have hps : p ∈ ps := hvals' p (hcmem p hp)
    have hpss : p ∈ sortStrings ps := mem_sortStrings.mpr hps
    cases pn? with
    | none =>
      rw [buildPrimerNames_none_eq, keys_map_diag]
      exact hpss
    | some pn => exact mem_keys_buildPrimerNames_some hsnd hpss
  rw [sum_rowCounts hcolnd hcnd hsubcols]
  have htot := stat_fold_total lk srows [] info hs pbid
  rw [hg] at htot
  simpa [dictGet?_nil, counterTotal, dictValues] using htot

theorem c4_sum_invariant_wit :
    (rowCounts [("2", 1), ("3", 1)]
        (keys (buildPrimerNames (sortStrings ["2", "3"]) none))).sum = 2 :=
  (c4_sum_invariant [⟨"r1", some "2", none⟩, ⟨"r2", some "3", none⟩]
    [⟨"r1", "Y", "PB.1.1"⟩, ⟨"r2", "Y", "PB.1.1"⟩, ⟨"r3", "N", "PB.1.1"⟩]
    none ["2", "3"] [("r1", "2"), ("r2", "3")] [("PB.1.1", [("2", 1), ("3", 1)])]
    "PB.1.1" [("2", 1), ("3", 1)]
    (by decide) (by decide) (by intro pn h; cases h) (by decide)).trans (by decide)

/-- C5: aggregating the read-status table fails exactly when some row with
`is_fl = "Y"` has a read id absent from the classify lookup; the error is
the `KeyError` for such a read's id, so a full-length read with no classify
entry is never silently skipped, and non-full-length rows never trigger it. -/
theorem c5_missing_read_error (rows : List ReadStatRow) (lookup : Dict String) :
    ((∃ e, read_read_stat rows lookup = .error e) ↔
      ∃ r ∈ rows, r.is_fl = "Y" ∧ dictGet? lookup r.id = none) ∧
    (∀ e, read_read_stat rows lookup = .error e →
      ∃ r ∈ rows, e = .keyError r.id ∧ r.is_fl = "Y" ∧ dictGet? lookup r.id = none) :=
  ⟨stat_fold_error_iff lookup rows [],
    fun e h => stat_fold_error_val lookup rows [] e h⟩

/-- C6: the completed column dictionary contains every observed primer; with
an override it is exactly the override's entries in their original order
followed by the omitted observed primers (each mapped to itself) as trailing
entries; with no override it is exactly the identity dictionary over the
observed primer set, which is duplicate-free and lexicographically sorted. -/
theorem c6_columns_complete (crows : List ClassifyRow) (ps : List String)
    (lk : Dict String) (pn : Dict String)
    (hc : read_classify_csv crows = .ok (ps, lk)) :
    (∀ p ∈ ps, p ∈ keys (buildPrimerNames (sortStrings ps) (some pn))) ∧
    buildPrimerNames (sortStrings ps) (some pn)
      = pn ++ ((sortStrings ps).filter
          (fun x => !(decide (x ∈ keys pn)))).map (fun x => (x, x)) ∧
    buildPrimerNames (sortStrings ps) none = (sortStrings ps).map (fun x => (x, x)) ∧
    List.Sorted (fun a b => strLeB a b = true) (sortStrings ps) ∧
    (sortStrings ps).Nodup ∧ (∀ p, p ∈ sortStrings ps ↔ p ∈ ps) := by
  obtain ⟨_, hnodup, _⟩ := classify_fold_inv crows ([], []) (ps, lk) hc
  have hpsnd : ps.Nodup := hnodup List.nodup_nil
  have hsnd : (sortStrings ps).Nodup := nodup_sortStrings hpsnd
  refine ⟨?_, buildPrimerNames_some_eq _ pn hsnd, buildPrimerNames_none_eq _,
    sortStrings_sorted ps, hsnd, fun p => mem_sortStrings⟩
  intro p hp
  exact mem_keys_buildPrimerNames_some hsnd (mem_sortStrings.mpr hp)

theorem c6_columns_complete_wit :
    buildPrimerNames (sortStrings ["3", "2"]) (some [("2", "SampleA")])
      = [("2", "SampleA"), ("3", "3")] :=
  ((c6_columns_complete [⟨"r1", some "3", none⟩, ⟨"r2", some "2", none⟩]
    ["3", "2"] [("r1", "3"), ("r2", "2")] [("2", "SampleA")]
    (by decide)).2.1).trans (by decide)

/-- C7: on success the classify lookup maps each read id to the token of the
LAST row for that id whose primer is not "NA" (`primer_index` when present,
else `primer`), and the build never fails as long as every row has a
`primer` field — duplicate read ids silently take the later value. -/
theorem c7_lookup_last_wins :
    (∀ (rows : List ClassifyRow) (ps : List String) (lk : Dict String),
      read_classify_csv rows = .ok (ps, lk) → ∀ q : String,
        dictGet? lk q =
          match (rows.filter (fun r => r.id == q && (rowToken r).isSome)).getLast? with
          | some r => rowToken r
          | none => none) ∧
    (∀ rows : List ClassifyRow, (∀ r ∈ rows, r.primer.isSome = true) →
      ∃ out, read_classify_csv rows = .ok out) := by
  constructor
  · intro rows ps lk hc q
    rw [classify_lookup_last rows ([], []) (ps, lk) hc q]
    cases (rows.filter (fun r => r.id == q && (rowToken r).isSome)).getLast? with
    | some r => rfl
    | none => exact dictGet?_nil q
  · intro rows h
    exact classify_ok_of_all_some rows h ([], [])

/-- C8: a classify-report row whose primer field is "NA" contributes
nothing — running the classify pass on any row list gives exactly the same
result (same primer set, same lookup, same success or failure) as running it
with every such row removed. -/
theorem c8_na_rows_contribute_nothing (rows : List ClassifyRow) :
    read_classify_csv rows
      = read_classify_csv (rows.filter (fun r => !(r.primer == some "NA"))) :=
  classify_filter_na rows ([], [])

/-- C9 counterexample: the claim says the build fails IF AND ONLY IF the
table lacks a `primer` field; a table that lacks the field but has no data
rows succeeds (the loop body, where `r['primer']` would raise, never runs). -/
theorem c9_headerless_empty_table_succeeds :
    ClassifyTable.primerField ⟨false, false, []⟩ = false ∧
    read_classify_table ⟨false, false, []⟩ = .ok ([], []) :=
  ⟨rfl, rfl⟩

/-- C9 (amended): the build fails exactly when the table lacks a `primer`
field AND has at least one data row, and then the error is the `KeyError`
for the `primer` field; on any table whose header declares `primer` it never
fails, whatever the other fields or the row contents. -/
theorem c9_format_error_iff (t : ClassifyTable) :
    ((∃ e, read_classify_table t = .error e) ↔
      (t.primerField = false ∧ t.rows ≠ [])) ∧
    (t.primerField = false → t.rows ≠ [] →
      read_classify_table t = .error (.keyError "primer")) := by
  obtain ⟨pf, pif, rows⟩ := t
  cases pf with
  | true =>
    obtain ⟨out, hout⟩ := classify_ok_of_all_some
      (ClassifyTable.dictRows ⟨true, pif, rows⟩)
      (by
        intro r hr
        rcases List.mem_map.mp hr with ⟨e, _, rfl⟩
        simp [ClassifyTable.dictRows])
      ([], [])
    constructor
    · constructor
      · rintro ⟨e, he⟩
        rw [read_classify_table] at he
        rw [read_classify_csv] at he
        rw [hout] at he
        cases he
      · rintro ⟨hpf, _⟩
        cases hpf
    · intro hpf
      cases hpf
  | false =>
    cases rows with
    | nil =>
      constructor
      · constructor
        · rintro ⟨e, he⟩
          cases he
        · rintro ⟨_, hne⟩
          exact absurd rfl hne
      · intro _ hne
        exact absurd rfl hne
    | cons e0 rest =>
      have herr : read_classify_table ⟨false, pif, e0 :: rest⟩
          = .error (.keyError "primer") := by
        rw [read_classify_table, read_classify_csv]
        exact classify_error_of_head_none rfl _ ([], [])
      constructor
      · constructor
        · intro _
          exact ⟨rfl, by intro hh; cases hh⟩
        · intro _
          exact ⟨.keyError "primer", herr⟩
      · intro _ _
        exact herr

/-- C10: completing a supplied override mutates it only by appending
defaults — every entry already in the override keeps its label, every
observed primer missing from it is inserted mapped to itself, and nothing
else is added (the mutation is modelled by state passing: the returned
dictionary is the caller's dictionary after `main` runs). -/
theorem c10_override_completed_in_place (crows : List ClassifyRow)
    (ps : List String) (lk : Dict String) (pn : Dict String)
    (hc : read_classify_csv crows = .ok (ps, lk)) :
    (∀ k v, dictGet? pn k = some v →
      dictGet? (buildPrimerNames (sortStrings ps) (some pn)) k = some v) ∧
    (∀ p ∈ ps, p ∉ keys pn →
      dictGet? (buildPrimerNames (sortStrings ps) (some pn)) p = some p) ∧
    (∀ kv ∈ buildPrimerNames (sortStrings ps) (some pn),
      kv ∈ pn ∨ (kv.1 ∈ ps ∧ kv.1 ∉ keys pn ∧ kv.2 = kv.1)) := by
  obtain ⟨_, hnodup, _⟩ := classify_fold_inv crows ([], []) (ps, lk) hc
  have hpsnd : ps.Nodup := hnodup List.nodup_nil
  have hsnd : (sortStrings ps).Nodup := nodup_sortStrings hpsnd
  rw [buildPrimerNames_some_eq _ pn hsnd]
  refine ⟨?_, ?_, ?_⟩
  · intro k v hkv
    rw [dictGet?_append, hkv]
  · intro p hp hnp
    rw [dictGet?_append, dictGet?_eq_none_of_not_mem hnp]
    have hpf : p ∈ (sortStrings ps).filter (fun x => !(decide (x ∈ keys pn))) :=
      List.mem_filter.mpr ⟨mem_sortStrings.mpr hp, by simpa using hnp⟩
    rw [dictGet?_map_diag, if_pos hpf]
  · intro kv hkv
    rcases List.mem_append.mp hkv with hkv | hkv
    · exact Or.inl hkv
    · rcases List.mem_map.mp hkv with ⟨x, hx, rfl⟩
      have hx1 := (List.mem_filter.mp hx).1
      have hx2 := (List.mem_filter.mp hx).2
      refine Or.inr ⟨mem_sortStrings.mp hx1, ?_, rfl⟩
      simpa using hx2

theorem c10_override_completed_in_place_wit :
    dictGet? (buildPrimerNames (sortStrings ["2", "3"]) (some [("2", "SampleA")])) "3"
      = some "3" :=
  (c10_override_completed_in_place [⟨"r1", some "2", none⟩, ⟨"r2", some "3", none⟩]
    ["2", "3"] [("r1", "2"), ("r2", "3")] [("2", "SampleA")]
    (by decide)).2.1 "3" (by decide) (by decide)

end Demux
